/-
Verification of the characteristic/accessory bridging core of the
esp32-homekit repository (include/hap.hpp and its implementation file),
shallowly embedded in Lean 4.

Modelling conventions:
  * a void* pointer-sized payload slot is modelled as an integer (the code
    stores integer bit patterns in the slot via reinterpret_cast);
  * C float arithmetic is modelled over the rationals: the codec claims
    quantify over values representable at 0.01 resolution and the scaling
    by 100 is exact there;
  * a std::function closure is modelled as an Option of a Lean function,
    with isSome playing the role of the non-null comparison;
  * side-effecting control flow (calls into the host, listener callbacks,
    the typed write consumers) is modelled by the trace of actions a call
    emits, in source order.
-/
import Mathlib

namespace HAP

/-- Actions emitted by the characteristic layer, in the order the C++
code performs them.  The valueChanged constructor marks one invocation of
Characteristic::value_changed with the payload it received; hapEvent is
the call hap_event_response(accessory_handle, event_handle, new_value);
listenerCall i is the invocation of the i-th registered listener;
the writeTyped actions are the calls into the virtual writeString /
writeFloat / writeInt implementations. -/
inductive Action where
  | valueChanged (payload : ℤ)
  | hapEvent (accessory_handle : Option ℤ) (event_handle : ℤ) (payload : ℤ)
  | listenerCall (idx : ℕ)
  | writeStringTyped (payload : ℤ)
  | writeFloatTyped (v : ℚ)
  | writeIntTyped (v : ℤ)
deriving DecidableEq

/-- State held by the base class Characteristic: the characteristic type
tag, the back-reference to the owning accessory handle (none until
Accessory::add_service assigns it), the event handle (a pointer, 0 for
nullptr, the initial value), and the registered value-changed listeners.
A listener is a std::function; only its non-null test matters to the
control flow (the code guards each call with if (listener)), so each
listener is modelled by the Bool of that test. -/
structure CharBase where
  ctype : ℕ
  accessory_handle : Option ℤ := none
  event_handle : ℤ := 0
  listeners : List Bool := []
deriving DecidableEq

/-- Invocations of the non-null listeners, in registration order:
for (auto listener : value_changed_listeners) if (listener) listener(this). -/
def listenerCalls (ls : List Bool) : List Action :=
  ls.enum.filterMap fun p => if p.2 then some (Action.listenerCall p.1) else none

/-- Characteristic::value_changed(void* new_value): if (event_handle)
hap_event_response(accessory_handle, event_handle, new_value); then every
non-null listener is invoked.  The leading valueChanged action marks the
invocation itself. -/
def Characteristic.value_changed (c : CharBase) (new_value : ℤ) : List Action :=
  Action.valueChanged new_value
    :: ((if c.event_handle ≠ 0
          then [Action.hapEvent c.accessory_handle c.event_handle new_value]
          else [])
        ++ listenerCalls c.listeners)

/-- Characteristic::notify(): if (!canRead()) return; value_changed(read()).
canRead and read are virtual; the embedding passes their results in. -/
def Characteristic.notify (c : CharBase) (canReadResult : Bool)
    (readResult : ℤ) : List Action :=
  if !canReadResult then [] else Characteristic.value_changed c readResult

/-- Characteristic::set_event_handle(handle, enable):
event_handle = enable ? handle : nullptr. -/
def Characteristic.set_event_handle (c : CharBase) (handle : ℤ)
    (enable : Bool) : CharBase :=
  { c with event_handle := if enable then handle else 0 }

/-- Characteristic::register_for_notifications(callback):
value_changed_listeners.push_back(callback). -/
def Characteristic.register_for_notifications (c : CharBase)
    (callbackNonNull : Bool) : CharBase :=
  { c with listeners := c.listeners ++ [callbackNonNull] }

/-- The C library round function (round half away from zero), as called by
FloatCharacteristic::floatToVoid. -/
def c_round (x : ℚ) : ℤ :=
  if 0 ≤ x then ⌊x + 1 / 2⌋ else -⌊-x + 1 / 2⌋

/-- FloatCharacteristic::floatToVoid(value):
static_cast of round(value * 100.0f) to int, stored in the pointer slot.
The cast is exact for results in the int range; the claims quantify over
such values. -/
def FloatCharacteristic.floatToVoid (value : ℚ) : ℤ :=
  c_round (value * 100)

/-- FloatCharacteristic::voidToFloat(value): the stored integer divided by
100.0f. -/
def FloatCharacteristic.voidToFloat (n : ℤ) : ℚ :=
  (n : ℚ) / 100

/-- StringCharacteristic::write(value, len): writeString constructs a
std::string from the payload pointer (the len argument is ignored by the
code), then value_changed(value) with the original payload. -/
def StringCharacteristic.write (c : CharBase) (value : ℤ) (len : ℕ) :
    List Action :=
  Action.writeStringTyped value :: Characteristic.value_changed c value

/-- FloatCharacteristic::write(value, len):
writeFloat(voidToFloat(value)); value_changed(value). -/
def FloatCharacteristic.write (c : CharBase) (value : ℤ) (len : ℕ) :
    List Action :=
  Action.writeFloatTyped (FloatCharacteristic.voidToFloat value)
    :: Characteristic.value_changed c value

/-- IntCharacteristic::write(value, len):
writeInt(reinterpret_cast of value to int); value_changed(value). -/
def IntCharacteristic.write (c : CharBase) (value : ℤ) (len : ℕ) :
    List Action :=
  Action.writeIntTyped value :: Characteristic.value_changed c value

/-- StringFunctionCharacteristic: the functional string characteristic,
holding the two closures of the FunctionCharacteristic mix-in. -/
structure StringFunctionCharacteristic where
  base : CharBase
  readFunction : Option (Unit → String)
  writeFunction : Option (String → Unit)

/-- StringFunctionCharacteristic::canRead(): readFunction != nullptr. -/
def StringFunctionCharacteristic.canRead
    (c : StringFunctionCharacteristic) : Bool :=
  c.readFunction.isSome

/-- StringFunctionCharacteristic::canWrite(): writeFunction != nullptr. -/
def StringFunctionCharacteristic.canWrite
    (c : StringFunctionCharacteristic) : Bool :=
  c.writeFunction.isSome

/-- FloatFunctionCharacteristic: the functional float characteristic. -/
structure FloatFunctionCharacteristic where
  base : CharBase
  readFunction : Option (Unit → ℚ)
  writeFunction : Option (ℚ → Unit)

/-- FloatFunctionCharacteristic::canRead(): readFunction != nullptr. -/
def FloatFunctionCharacteristic.canRead
    (c : FloatFunctionCharacteristic) : Bool :=
  c.readFunction.isSome

/-- FloatFunctionCharacteristic::canWrite(): writeFunction != nullptr. -/
def FloatFunctionCharacteristic.canWrite
    (c : FloatFunctionCharacteristic) : Bool :=
  c.writeFunction.isSome

/-- IntFunctionCharacteristic: the functional int characteristic. -/
structure IntFunctionCharacteristic where
  base : CharBase
  readFunction : Option (Unit → ℤ)
  writeFunction : Option (ℤ → Unit)

/-- IntFunctionCharacteristic::canRead(): readFunction != nullptr. -/
def IntFunctionCharacteristic.canRead
    (c : IntFunctionCharacteristic) : Bool :=
  c.readFunction.isSome

/-- IntFunctionCharacteristic::canWrite(): writeFunction != nullptr. -/
def IntFunctionCharacteristic.canWrite
    (c : IntFunctionCharacteristic) : Bool :=
  c.writeFunction.isSome

/-- Dynamic allocations made while building transfer structures: a heap of
allocated blocks (address, contents) together with the next fresh address.
new int[n] followed by memcpy from the source vector is modelled by alloc
with the copied contents; delete[] by free. -/
structure Heap where
  nextAddr : ℕ
  blocks : List (ℕ × List ℤ)
deriving DecidableEq

/-- Allocate a fresh block holding a copy of data. -/
def Heap.alloc (h : Heap) (data : List ℤ) : ℕ × Heap :=
  (h.nextAddr, ⟨h.nextAddr + 1, (h.nextAddr, data) :: h.blocks⟩)

/-- Release the block at address a. -/
def Heap.free (h : Heap) (a : ℕ) : Heap :=
  ⟨h.nextAddr, h.blocks.filter fun b => b.1 ≠ a⟩

/-- All block addresses are below the allocation frontier. -/
def Heap.wfb (h : Heap) : Bool :=
  h.blocks.all fun b => b.1 < h.nextAddr

/-- The host transfer structure hap_characteristic_ex, in the field order
of the aggregate initializer in Characteristic::get_characteristic_struct.
Function pointers are modelled by the Bool of their non-null test; the
valid_values pointer by an optional heap address. -/
structure HapCharacteristicEx where
  ctype : ℕ
  value : ℤ
  context : ℕ
  read_fn_set : Bool
  write_fn_set : Bool
  event_fn_set : Bool
  override_max_value : Bool
  max_value : ℤ
  override_min_value : Bool
  min_value : ℤ
  reserved_flag : Bool
  reserved_ptr : Option ℕ
  override_valid_values : Bool
  valid_values_count : ℕ
  valid_values : Option ℕ
deriving DecidableEq

/-- A characteristic as Accessory::add_service sees it: the base state
plus the results of the virtual calls get_characteristic_struct makes
(read, canRead, canWrite and the three override probes).  objAddr stands
for the this-pointer stored in the context field. -/
structure CharObj where
  base : CharBase
  objAddr : ℕ
  readResult : ℤ
  canReadResult : Bool
  canWriteResult : Bool
  get_max_value_override : Bool × ℤ
  get_min_value_override : Bool × ℤ
  get_valid_values_override : Bool × List ℤ
deriving DecidableEq

/-- Characteristic::get_characteristic_struct(): ties the three override
probes, allocates valid_values_dyn (a copy of the override sequence) when
the valid-values override is present, and returns the aggregate with the
count field override_valid_values ? valid_values.size() : 0 and the
read/write function pointers null when the capability is absent. -/
def Characteristic.get_characteristic_struct (c : CharObj) (h : Heap) :
    HapCharacteristicEx × Heap :=
  ({ ctype := c.base.ctype
     value := c.readResult
     context := c.objAddr
     read_fn_set := c.canReadResult
     write_fn_set := c.canWriteResult
     event_fn_set := true
     override_max_value := c.get_max_value_override.1
     max_value := c.get_max_value_override.2
     override_min_value := c.get_min_value_override.1
     min_value := c.get_min_value_override.2
     reserved_flag := false
     reserved_ptr := none
     override_valid_values := c.get_valid_values_override.1
     valid_values_count :=
       if c.get_valid_values_override.1 then
         c.get_valid_values_override.2.length
       else 0
     valid_values :=
       if c.get_valid_values_override.1 then
         some (h.alloc c.get_valid_values_override.2).1
       else none },
   if c.get_valid_values_override.1 then
     (h.alloc c.get_valid_values_override.2).2
   else h)

/-- Characteristic::delete_characteristic_struct_internals(cs):
if (cs.override_valid_values && cs.valid_values) delete[] cs.valid_values. -/
def Characteristic.delete_characteristic_struct_internals (h : Heap)
    (cs : HapCharacteristicEx) : Heap :=
  if cs.override_valid_values then
    match cs.valid_values with
    | some a => h.free a
    | none => h
  else h

/-- Steps Accessory::add_service performs, in source order: the
accessory_handle assignment to the i-th characteristic, the conversion of
the i-th characteristic into a transfer structure (recording the fresh
allocation, if any, as address and copied contents), the host call
hap_service_and_characteristics_ex_add, the release of the j-th transfer
structure internals (recording the freed address, if any), the delete[] of
the struct array, and any characteristic-layer action (add_service emits
none; the constructor exists so that the absence is expressible). -/
inductive SvcStep where
  | assignHandle (i : ℕ)
  | buildStruct (i : ℕ) (allocated : Option (ℕ × List ℤ))
  | hostCallEx (service_type : ℕ) (count : ℕ)
  | releaseInternals (j : ℕ) (freedAddr : Option ℕ)
  | freeStructArray
  | charAction (a : Action)
deriving DecidableEq

/-- The first loop of Accessory::add_service, from index i onward: for
each characteristic, assign its accessory_handle back-reference, then
convert it with get_characteristic_struct.  Returns the updated
characteristics, the transfer structures, the heap, and the trace. -/
def Accessory.add_service_build (ah : ℤ) :
    List CharObj → ℕ → Heap →
      List CharObj × List HapCharacteristicEx × Heap × List SvcStep
  | [], _, h => ([], [], h, [])
  | c :: rest, i, h =>
    let c2 : CharObj := { c with base := { c.base with accessory_handle := some ah } }
    let p := Characteristic.get_characteristic_struct c2 h
    let r2 := Accessory.add_service_build ah rest (i + 1) p.2
    (c2 :: r2.1, p.1 :: r2.2.1, r2.2.2.1,
      SvcStep.assignHandle i
        :: SvcStep.buildStruct i
            (p.1.valid_values.map fun a => (a, c2.get_valid_values_override.2))
        :: r2.2.2.2)

/-- The second loop of Accessory::add_service, from index j onward:
delete_characteristic_struct_internals on each transfer structure. -/
def Accessory.add_service_release :
    List HapCharacteristicEx → ℕ → Heap → Heap × List SvcStep
  | [], _, h => (h, [])
  | cs :: rest, j, h =>
    let r2 := Accessory.add_service_release rest (j + 1)
        (Characteristic.delete_characteristic_struct_internals h cs)
    (r2.1, SvcStep.releaseInternals j
        (if cs.override_valid_values then cs.valid_values else none) :: r2.2)

/-- Accessory::add_service(service_type, characteristics): build every
transfer structure (assigning accessory_handle first), make the host call,
release every transfer structure internals, delete[] the array. -/
def Accessory.add_service (ah : ℤ) (service_type : ℕ)
    (characteristics : List CharObj) (h : Heap) :
    List CharObj × List HapCharacteristicEx × Heap × List SvcStep :=
  let b := Accessory.add_service_build ah characteristics 0 h
  let r := Accessory.add_service_release b.2.1 0 b.2.2.1
  (b.1, b.2.1, r.1,
    b.2.2.2 ++ (SvcStep.hostCallEx service_type characteristics.length
      :: (r.2 ++ [SvcStep.freeStructArray])))

/-- The allocation a build step records, if any. -/
def SvcStep.allocatedOf : SvcStep → Option (ℕ × List ℤ)
  | SvcStep.buildStruct _ a => a
  | _ => none

/-- The address a release step frees, if any. -/
def SvcStep.freedOf : SvcStep → Option ℕ
  | SvcStep.releaseInternals _ f => f
  | _ => none

/-- Test for the host registration call. -/
def SvcStep.isHostCall : SvcStep → Bool
  | SvcStep.hostCallEx _ _ => true
  | _ => false

/-- Test for a release step. -/
def SvcStep.isRelease : SvcStep → Bool
  | SvcStep.releaseInternals _ _ => true
  | _ => false

/-- Test for a characteristic-layer action. -/
def SvcStep.isCharAction : SvcStep → Bool
  | SvcStep.charAction _ => true
  | _ => false

/-- Test for the accessory_handle assignment to characteristic i. -/
def SvcStep.isAssignOf (i : ℕ) : SvcStep → Bool
  | SvcStep.assignHandle j => j == i
  | _ => false

/-- Test for the transfer-structure conversion of characteristic i. -/
def SvcStep.isBuildOf (i : ℕ) : SvcStep → Bool
  | SvcStep.buildStruct j _ => j == i
  | _ => false

/-- Addresses allocated along a trace, in order. -/
def allocatedAddrs : List SvcStep → List ℕ
  | [] => []
  | s :: rest =>
    match s.allocatedOf with
    | some p => p.1 :: allocatedAddrs rest
    | none => allocatedAddrs rest

/-- Contents allocated along a trace, in order. -/
def allocatedData : List SvcStep → List (List ℤ)
  | [] => []
  | s :: rest =>
    match s.allocatedOf with
    | some p => p.2 :: allocatedData rest
    | none => allocatedData rest

/-- Addresses freed along a trace, in order. -/
def freedAddrs : List SvcStep → List ℕ
  | [] => []
  | s :: rest =>
    match s.freedOf with
    | some a => a :: freedAddrs rest
    | none => freedAddrs rest

/-- The valid-values pointers carried by a batch of transfer structures
that their release steps will free. -/
def releasablePtrs : List HapCharacteristicEx → List ℕ
  | [] => []
  | cs :: rest =>
    if cs.override_valid_values then
      match cs.valid_values with
      | some a => a :: releasablePtrs rest
      | none => releasablePtrs rest
    else releasablePtrs rest

/-- The blocks the build loop allocates when the characteristics are
converted starting at allocation frontier n: one block per
valid-values-override-present characteristic, at consecutive fresh
addresses, each holding a copy of the source sequence. -/
def allocBlocks : List CharObj → ℕ → List (ℕ × List ℤ)
  | [], _ => []
  | c :: rest, n =>
    if c.get_valid_values_override.1 then
      (n, c.get_valid_values_override.2) :: allocBlocks rest (n + 1)
    else
      allocBlocks rest n

/-- The trace the build loop of add_service emits for the characteristics
from index i onward with allocation frontier n: the handle assignment,
then the conversion (with its allocation when the valid-values override is
present), per characteristic. -/
def buildTrace : List CharObj → ℕ → ℕ → List SvcStep
  | [], _, _ => []
  | c :: rest, i, n =>
    if c.get_valid_values_override.1 then
      SvcStep.assignHandle i
        :: SvcStep.buildStruct i (some (n, c.get_valid_values_override.2))
        :: buildTrace rest (i + 1) (n + 1)
    else
      SvcStep.assignHandle i :: SvcStep.buildStruct i none
        :: buildTrace rest (i + 1) n

/-- Process-level host interactions of Accessory::register_accessory: the
one-time hap_init() call, and the hap_accessory_register call that obtains
an accessory handle, recording the value of the process-wide flag
hap_initialized at the moment the handle is requested. -/
inductive GStep where
  | hapInit
  | hapRegister (flag_at_call : Bool)
deriving DecidableEq

/-- Accessory::register_accessory(), acting on the static flag
hap_initialized: if (!hap_initialized) { hap_initialized = true;
hap_init(); } then hap_accessory_register(...).  Returns the new flag and
the emitted host calls. -/
def Accessory.register_accessory (hap_initialized : Bool) :
    Bool × List GStep :=
  if hap_initialized then
    (hap_initialized, [GStep.hapRegister hap_initialized])
  else
    (true, [GStep.hapInit, GStep.hapRegister true])

/-- A sequence of n register_accessory calls (on any accessories of the
process; the flag is static, shared by all instances). -/
def run_register_accessories : ℕ → Bool → Bool × List GStep
  | 0, flag => (flag, [])
  | n + 1, flag =>
    let r := Accessory.register_accessory flag
    let r2 := run_register_accessories n r.1
    (r2.1, r.2 ++ r2.2)

/-- The characteristic type tags of hap.h that init_callback uses, plus an
opaque constructor for every other tag. -/
inductive HapCharacterType where
  | identify
  | manufacturer
  | model
  | name
  | serialNumber
  | firmwareRevision
  | other (tag : ℕ)
deriving DecidableEq

/-- The service type tags of hap.h: the accessory-information service used
by init_callback, plus an opaque constructor for every other tag. -/
inductive HapServiceType where
  | accessoryInformation
  | other (tag : ℕ)
deriving DecidableEq

/-- Steps of the post-registration callback: obtaining the accessory
object (hap_accessory_add), one host service-registration call carrying
its characteristic types, and the invocation of the user init() hook. -/
inductive InitStep where
  | accessoryAdd
  | serviceAdd (st : HapServiceType) (cs : List HapCharacterType)
  | userInitHook
deriving DecidableEq

/-- The six mandatory built-in characteristics of the cs[] array in
Accessory::init_callback, in source order. -/
def mandatory_characteristics : List HapCharacterType :=
  [HapCharacterType.identify, HapCharacterType.manufacturer,
   HapCharacterType.model, HapCharacterType.name,
   HapCharacterType.serialNumber, HapCharacterType.firmwareRevision]

/-- Accessory::init_callback(): hap_accessory_add, then
hap_service_and_characteristics_add with the six mandatory
characteristics on the accessory-information service, then the
user-defined init() hook runs and adds the user services (one
hap_service_and_characteristics_ex_add per add_service call it makes). -/
def Accessory.init_callback
    (userServices : List (HapServiceType × List HapCharacterType)) :
    List InitStep :=
  InitStep.accessoryAdd
    :: InitStep.serviceAdd HapServiceType.accessoryInformation
        mandatory_characteristics
    :: InitStep.userInitHook
    :: userServices.map fun s => InitStep.serviceAdd s.1 s.2

/-- The services a callback trace has registered with the host, in
order. -/
def servicesAdded : List InitStep →
    List (HapServiceType × List HapCharacterType)
  | [] => []
  | InitStep.serviceAdd a b :: rest => (a, b) :: servicesAdded rest
  | InitStep.accessoryAdd :: rest => servicesAdded rest
  | InitStep.userInitHook :: rest => servicesAdded rest

/-- Test for the user init() hook invocation. -/
def InitStep.isUserHook : InitStep → Bool
  | InitStep.userInitHook => true
  | _ => false

/-- Storage whose lifetime the string read path touches: the allocation
counter for materialized std::string temporaries and the set of currently
live temporary addresses. -/
structure TempStore where
  nextAddr : ℕ
  live : List ℕ
deriving DecidableEq

/-- StringCharacteristic::read(): return (void*)(readString().c_str()).
readString() returns a std::string by value, so a temporary is
materialized (a fresh address becomes live), its c_str() address is the
address returned, and the temporary is destroyed at the end of the
full-expression (the address leaves the live set) before the caller
receives the address. -/
def StringCharacteristic.read (s : TempStore) : ℕ × TempStore :=
  (s.nextAddr,
   ⟨s.nextAddr + 1, (s.nextAddr :: s.live).filter fun a => a ≠ s.nextAddr⟩)

/-- Test for the valueChanged marker action. -/
def Action.isValueChanged : Action → Bool
  | Action.valueChanged _ => true
  | _ => false

/-- Test for the hapEvent action (the host emit-event call). -/
def Action.isHapEvent : Action → Bool
  | Action.hapEvent _ _ _ => true
  | _ => false

/-- Test for a listener invocation. -/
def Action.isListenerCall : Action → Bool
  | Action.listenerCall _ => true
  | _ => false

/-- A sample service batch for evaluating add_service concretely: one
characteristic with a valid-values override and one without. -/
def sampleChars : List CharObj :=
  [⟨⟨1, none, 0, []⟩, 11, 7, true, true, (false, 0), (false, 0),
    (true, [3, 4])⟩,
   ⟨⟨2, none, 0, []⟩, 12, 8, true, false, (false, 0), (false, 0),
    (false, [])⟩]

/-- The empty heap. -/
def sampleHeap : Heap := ⟨0, []⟩

lemma mem_listenerCalls {a : Action} {ls : List Bool}
    (h : a ∈ listenerCalls ls) : a.isListenerCall = true := by
  simp only [listenerCalls, List.mem_filterMap] at h
  obtain ⟨p, hp, he⟩ := h
  by_cases hb : p.2
  · rw [if_pos hb] at he
    obtain rfl := Option.some.inj he
    rfl
  · rw [if_neg hb] at he
    exact Option.noConfusion he

lemma listenerCalls_countP_valueChanged (ls : List Bool) :
    (listenerCalls ls).countP Action.isValueChanged = 0 := by
  rw [List.countP_eq_zero]
  intro a ha
  have h := mem_listenerCalls ha
  cases a <;> simp_all [Action.isListenerCall, Action.isValueChanged]

lemma listenerCalls_countP_hapEvent (ls : List Bool) :
    (listenerCalls ls).countP Action.isHapEvent = 0 := by
  rw [List.countP_eq_zero]
  intro a ha
  have h := mem_listenerCalls ha
  cases a <;> simp_all [Action.isListenerCall, Action.isHapEvent]

lemma listenerCalls_filter_self (ls : List Bool) :
    (listenerCalls ls).filter Action.isListenerCall = listenerCalls ls :=
  List.filter_eq_self.mpr fun _ ha => mem_listenerCalls ha

lemma value_changed_countP_valueChanged (c : CharBase) (v : ℤ) :
    (Characteristic.value_changed c v).countP Action.isValueChanged = 1 := by
  by_cases h : c.event_handle = 0 <;>
    simp [Characteristic.value_changed, h, List.countP_cons, List.countP_append,
      listenerCalls_countP_valueChanged, Action.isValueChanged,
      Action.isHapEvent]

lemma value_changed_countP_hapEvent (c : CharBase) (v : ℤ) :
    (Characteristic.value_changed c v).countP Action.isHapEvent =
      if c.event_handle ≠ 0 then 1 else 0 := by
  by_cases h : c.event_handle = 0 <;>
    simp [Characteristic.value_changed, h, List.countP_cons, List.countP_append,
      listenerCalls_countP_hapEvent, Action.isValueChanged, Action.isHapEvent]

lemma value_changed_filter_listener (c : CharBase) (v : ℤ) :
    (Characteristic.value_changed c v).filter Action.isListenerCall =
      listenerCalls c.listeners := by
  by_cases h : c.event_handle = 0 <;>
    simp [Characteristic.value_changed, h, List.filter_cons, List.filter_append,
      listenerCalls_filter_self, Action.isListenerCall]

lemma c_round_intCast (k : ℤ) : c_round (k : ℚ) = k := by
  unfold c_round
  have hhalf : ⌊(1 / 2 : ℚ)⌋ = 0 := by norm_num
  split_ifs with h
  · rw [Int.floor_int_add, hhalf, add_zero]
  · have : -(k : ℚ) = ((-k : ℤ) : ℚ) := by push_cast; ring
    rw [this, Int.floor_int_add, hhalf, add_zero, neg_neg]

/-- C1: the float codec at resolution 0.01 round-trips exactly (hence
within the claimed 0.005 bound): for every value of the form k / 100,
voidToFloat (floatToVoid v) = v and the round-trip error is at most
5 / 1000; moreover encoding 21.5 yields the integer 2150. -/
theorem float_codec_roundtrip :
    ∀ k : ℤ,
      FloatCharacteristic.voidToFloat
          (FloatCharacteristic.floatToVoid ((k : ℚ) / 100)) = (k : ℚ) / 100
      ∧ |FloatCharacteristic.voidToFloat
            (FloatCharacteristic.floatToVoid ((k : ℚ) / 100)) - (k : ℚ) / 100|
          ≤ 5 / 1000
      ∧ FloatCharacteristic.floatToVoid (215 / 10) = 2150 := by
  intro k
  have hmul : ((k : ℚ) / 100) * 100 = (k : ℚ) := by field_simp
  have henc : FloatCharacteristic.floatToVoid ((k : ℚ) / 100) = k := by
    rw [FloatCharacteristic.floatToVoid, hmul, c_round_intCast]
  have hrt : FloatCharacteristic.voidToFloat
      (FloatCharacteristic.floatToVoid ((k : ℚ) / 100)) = (k : ℚ) / 100 := by
    rw [henc, FloatCharacteristic.voidToFloat]
  refine ⟨hrt, by rw [hrt]; norm_num, ?_⟩
  have h2150 : ((215 : ℚ) / 10) * 100 = ((2150 : ℤ) : ℚ) := by norm_num
  rw [FloatCharacteristic.floatToVoid, h2150, c_round_intCast]

/-- C2: for each typed characteristic form (string, float, int), write
emits exactly one value-changed dispatch, after applying the new value
through the typed write implementation, independently of any prior value
(no de-duplication: the trace does not consult the previous value at
all). -/
theorem write_triggers_one_dispatch :
    ∀ (c : CharBase) (value : ℤ) (len : ℕ),
      (StringCharacteristic.write c value len).countP Action.isValueChanged = 1
      ∧ (StringCharacteristic.write c value len).head? =
          some (Action.writeStringTyped value)
      ∧ (FloatCharacteristic.write c value len).countP Action.isValueChanged = 1
      ∧ (FloatCharacteristic.write c value len).head? =
          some (Action.writeFloatTyped (FloatCharacteristic.voidToFloat value))
      ∧ (IntCharacteristic.write c value len).countP Action.isValueChanged = 1
      ∧ (IntCharacteristic.write c value len).head? =
          some (Action.writeIntTyped value) := by
  intro c value len
  refine ⟨?_, rfl, ?_, rfl, ?_, rfl⟩ <;>
    simp [StringCharacteristic.write, FloatCharacteristic.write,
      IntCharacteristic.write, List.countP_cons, Action.isValueChanged,
      value_changed_countP_valueChanged]

/-- C3: for each functional characteristic form, canRead holds exactly
when the read supplier closure is set and canWrite holds exactly when the
write consumer closure is set. -/
theorem canRead_canWrite_mirror_closures :
    ∀ (s : StringFunctionCharacteristic) (f : FloatFunctionCharacteristic)
      (i : IntFunctionCharacteristic),
      (s.canRead = true ↔ s.readFunction.isSome = true)
      ∧ (s.canWrite = true ↔ s.writeFunction.isSome = true)
      ∧ (f.canRead = true ↔ f.readFunction.isSome = true)
      ∧ (f.canWrite = true ↔ f.writeFunction.isSome = true)
      ∧ (i.canRead = true ↔ i.readFunction.isSome = true)
      ∧ (i.canWrite = true ↔ i.writeFunction.isSome = true) := by
  intro s f i
  exact ⟨Iff.rfl, Iff.rfl, Iff.rfl, Iff.rfl, Iff.rfl, Iff.rfl⟩

/-- C4: notify invokes exactly the registered listeners when canRead is
true and nothing otherwise, and the host emit-event call occurs exactly
when canRead is true and the event handle is set; in particular no host
event call occurs while the event handle is unset (null). -/
theorem notify_iff_canRead :
    ∀ (c : CharBase) (canReadResult : Bool) (readResult : ℤ),
      ((Characteristic.notify c canReadResult readResult).filter
          Action.isListenerCall =
        if canReadResult then listenerCalls c.listeners else [])
      ∧ ((Characteristic.notify c canReadResult readResult).countP
          Action.isHapEvent =
        if canReadResult = true ∧ c.event_handle ≠ 0 then 1 else 0) := by
  intro c canReadResult readResult
  cases canReadResult <;>
    simp [Characteristic.notify, value_changed_filter_listener,
      value_changed_countP_hapEvent]

/-- C10: disabling eventing resets the event handle to null; every
subsequent value-changed dispatch performs no host emit-event call while
still invoking all local listeners, and enabling eventing again restores
the host event path (when the supplied handle is non-null). -/
theorem disable_events_resets_handle :
    ∀ (c : CharBase) (handle : ℤ) (v : ℤ) (handle2 : ℤ),
      ((Characteristic.set_event_handle c handle false).event_handle = 0)
      ∧ ((Characteristic.value_changed
            (Characteristic.set_event_handle c handle false) v).countP
          Action.isHapEvent = 0)
      ∧ ((Characteristic.value_changed
            (Characteristic.set_event_handle c handle false) v).filter
          Action.isListenerCall = listenerCalls c.listeners)
      ∧ ((Characteristic.value_changed
            (Characteristic.set_event_handle
              (Characteristic.set_event_handle c handle false) handle2 true)
            v).countP Action.isHapEvent = if handle2 ≠ 0 then 1 else 0) := by
  intro c handle v handle2
  refine ⟨rfl, ?_, ?_, ?_⟩
  · rw [value_changed_countP_hapEvent]
    simp [Characteristic.set_event_handle]
  · rw [value_changed_filter_listener]
    rfl
  · rw [value_changed_countP_hapEvent]
    simp [Characteristic.set_event_handle]

lemma add_service_build_length (ah : ℤ) (chars : List CharObj) :
    ∀ (i : ℕ) (h : Heap),
      (Accessory.add_service_build ah chars i h).2.1.length = chars.length := by
  induction chars with
  | nil => intro i h; simp [Accessory.add_service_build]
  | cons c rest ih =>
    intro i h
    simp [Accessory.add_service_build, ih]

lemma add_service_build_match (ah : ℤ) (chars : List CharObj) :
    ∀ (i : ℕ) (h : Heap),
      (((Accessory.add_service_build ah chars i h).2.1.zip chars).all fun p =>
          (p.1.override_valid_values == p.2.get_valid_values_override.1)
          && (p.1.valid_values_count ==
                if p.2.get_valid_values_override.1 then
                  p.2.get_valid_values_override.2.length
                else 0)
          && (p.1.valid_values.isSome == p.2.get_valid_values_override.1)) =
        true := by
  induction chars with
  | nil => intro i h; simp [Accessory.add_service_build]
  | cons c rest ih =>
    intro i h
    by_cases hov : c.get_valid_values_override.1 <;>
      simp [Accessory.add_service_build,
        Characteristic.get_characteristic_struct, Heap.alloc, hov, ih]

lemma add_service_build_ptrs (ah : ℤ) (chars : List CharObj) :
    ∀ (i : ℕ) (h : Heap),
      releasablePtrs (Accessory.add_service_build ah chars i h).2.1 =
        (allocBlocks chars h.nextAddr).map Prod.fst := by
  induction chars with
  | nil =>
    intro i h
    simp [Accessory.add_service_build, releasablePtrs, allocBlocks]
  | cons c rest ih =>
    intro i h
    by_cases hov : c.get_valid_values_override.1 <;>
      simp [Accessory.add_service_build,
        Characteristic.get_characteristic_struct, Heap.alloc, hov, ih,
        releasablePtrs, allocBlocks]

lemma add_service_build_nextAddr (ah : ℤ) (chars : List CharObj) :
    ∀ (i : ℕ) (h : Heap),
      (Accessory.add_service_build ah chars i h).2.2.1.nextAddr =
        h.nextAddr + chars.countP fun c => c.get_valid_values_override.1 := by
  induction chars with
  | nil => intro i h; simp [Accessory.add_service_build]
  | cons c rest ih =>
    intro i h
    by_cases hov : c.get_valid_values_override.1 <;>
      simp [Accessory.add_service_build,
        Characteristic.get_characteristic_struct, Heap.alloc, hov, ih,
        List.countP_cons] <;> omega

lemma add_service_build_blocks (ah : ℤ) (chars : List CharObj) :
    ∀ (i : ℕ) (h : Heap),
      (Accessory.add_service_build ah chars i h).2.2.1.blocks =
        (allocBlocks chars h.nextAddr).reverse ++ h.blocks := by
  induction chars with
  | nil => intro i h; simp [Accessory.add_service_build, allocBlocks]
  | cons c rest ih =>
    intro i h
    by_cases hov : c.get_valid_values_override.1 <;>
      simp [Accessory.add_service_build,
        Characteristic.get_characteristic_struct, Heap.alloc, hov, ih,
        allocBlocks]

lemma add_service_build_overrides (ah : ℤ) (chars : List CharObj) :
    ∀ (i : ℕ) (h : Heap),
      (Accessory.add_service_build ah chars i h).1.map
          (fun c => c.get_valid_values_override) =
        chars.map fun c => c.get_valid_values_override := by
  induction chars with
  | nil => intro i h; simp [Accessory.add_service_build]
  | cons c rest ih =>
    intro i h
    simp [Accessory.add_service_build, ih]

lemma add_service_build_handles (ah : ℤ) (chars : List CharObj) :
    ∀ (i : ℕ) (h : Heap),
      ((Accessory.add_service_build ah chars i h).1.all fun c =>
          c.base.accessory_handle == some ah) = true := by
  induction chars with
  | nil => intro i h; simp [Accessory.add_service_build]
  | cons c rest ih =>
    intro i h
    simp [Accessory.add_service_build, ih]

lemma add_service_build_trace (ah : ℤ) (chars : List CharObj) :
    ∀ (i : ℕ) (h : Heap),
      (Accessory.add_service_build ah chars i h).2.2.2 =
        buildTrace chars i h.nextAddr := by
  induction chars with
  | nil => intro i h; simp [Accessory.add_service_build, buildTrace]
  | cons c rest ih =>
    intro i h
    by_cases hov : c.get_valid_values_override.1 <;>
      simp [Accessory.add_service_build,
        Characteristic.get_characteristic_struct, Heap.alloc, hov, ih,
        buildTrace]

lemma add_service_release_nextAddr (structs : List HapCharacteristicEx) :
    ∀ (j : ℕ) (h : Heap),
      (Accessory.add_service_release structs j h).1.nextAddr = h.nextAddr := by
  induction structs with
  | nil => intro j h; simp [Accessory.add_service_release]
  | cons cs rest ih =>
    intro j h
    have hd : (Characteristic.delete_characteristic_struct_internals h
        cs).nextAddr = h.nextAddr := by
      unfold Characteristic.delete_characteristic_struct_internals
      by_cases hov : cs.override_valid_values
      · cases hvv : cs.valid_values <;> simp [hov, hvv, Heap.free]
      · simp [hov]
    simp [Accessory.add_service_release, ih, hd]

lemma add_service_release_blocks (structs : List HapCharacteristicEx) :
    ∀ (j : ℕ) (h : Heap),
      (Accessory.add_service_release structs j h).1.blocks =
        h.blocks.filter fun b =>
          decide (b.1 ∉ releasablePtrs structs) := by
  induction structs with
  | nil =>
    intro j h
    simp [Accessory.add_service_release, releasablePtrs]
  | cons cs rest ih =>
    intro j h
    by_cases hov : cs.override_valid_values
    · cases hvv : cs.valid_values with
      | none =>
        simp [Accessory.add_service_release, ih,
          Characteristic.delete_characteristic_struct_internals, hov, hvv,
          releasablePtrs]
      | some a =>
        simp only [Accessory.add_service_release, ih,
          Characteristic.delete_characteristic_struct_internals, hov, hvv,
          releasablePtrs, if_true, Heap.free, List.filter_filter]
        apply List.filter_congr
        intro b _
        by_cases hba : b.1 = a <;> simp [hba]
    · simp [Accessory.add_service_release, ih,
        Characteristic.delete_characteristic_struct_internals, hov,
        releasablePtrs]

lemma add_service_release_freed (structs : List HapCharacteristicEx) :
    ∀ (j : ℕ) (h : Heap),
      freedAddrs (Accessory.add_service_release structs j h).2 =
        releasablePtrs structs := by
  induction structs with
  | nil => intro j h; simp [Accessory.add_service_release, freedAddrs,
      releasablePtrs]
  | cons cs rest ih =>
    intro j h
    by_cases hov : cs.override_valid_values
    · cases hvv : cs.valid_values <;>
        simp [Accessory.add_service_release, freedAddrs, releasablePtrs,
          hov, hvv, SvcStep.freedOf, ih]
    · simp [Accessory.add_service_release, freedAddrs, releasablePtrs,
        hov, SvcStep.freedOf, ih]

lemma add_service_release_allocated (structs : List HapCharacteristicEx) :
    ∀ (j : ℕ) (h : Heap),
      allocatedAddrs (Accessory.add_service_release structs j h).2 = []
      ∧ allocatedData (Accessory.add_service_release structs j h).2 = [] := by
  induction structs with
  | nil => intro j h; simp [Accessory.add_service_release, allocatedAddrs,
      allocatedData]
  | cons cs rest ih =>
    intro j h
    simp [Accessory.add_service_release, allocatedAddrs, allocatedData,
      SvcStep.allocatedOf, ih]

lemma add_service_release_kinds (structs : List HapCharacteristicEx) :
    ∀ (j : ℕ) (h : Heap),
      ((Accessory.add_service_release structs j h).2.all fun s =>
        s.isRelease && !s.isCharAction && !s.isHostCall) = true := by
  induction structs with
  | nil => intro j h; simp [Accessory.add_service_release]
  | cons cs rest ih =>
    intro j h
    have hcons :
        (Accessory.add_service_release (cs :: rest) j h).2 =
          SvcStep.releaseInternals j
              (if cs.override_valid_values then cs.valid_values else none)
            :: (Accessory.add_service_release rest (j + 1)
                (Characteristic.delete_characteristic_struct_internals h
                  cs)).2 := rfl
    rw [hcons, List.all_cons, Bool.and_eq_true]
    exact ⟨rfl, ih _ _⟩

lemma buildTrace_allocatedAddrs (chars : List CharObj) :
    ∀ (i n : ℕ),
      allocatedAddrs (buildTrace chars i n) =
        (allocBlocks chars n).map Prod.fst := by
  induction chars with
  | nil => intro i n; simp [buildTrace, allocatedAddrs, allocBlocks]
  | cons c rest ih =>
    intro i n
    by_cases hov : c.get_valid_values_override.1 <;>
      simp [buildTrace, allocatedAddrs, allocBlocks, SvcStep.allocatedOf,
        hov, ih]

lemma buildTrace_allocatedData (chars : List CharObj) :
    ∀ (i n : ℕ),
      allocatedData (buildTrace chars i n) =
        (allocBlocks chars n).map Prod.snd := by
  induction chars with
  | nil => intro i n; simp [buildTrace, allocatedData, allocBlocks]
  | cons c rest ih =>
    intro i n
    by_cases hov : c.get_valid_values_override.1 <;>
      simp [buildTrace, allocatedData, allocBlocks, SvcStep.allocatedOf,
        hov, ih]

lemma buildTrace_freed (chars : List CharObj) :
    ∀ (i n : ℕ), freedAddrs (buildTrace chars i n) = [] := by
  induction chars with
  | nil => intro i n; simp [buildTrace, freedAddrs]
  | cons c rest ih =>
    intro i n
    by_cases hov : c.get_valid_values_override.1 <;>
      simp [buildTrace, freedAddrs, SvcStep.freedOf, hov, ih]

lemma buildTrace_kinds (chars : List CharObj) :
    ∀ (i n : ℕ),
      ((buildTrace chars i n).all fun s =>
        !s.isHostCall && !s.isRelease && !s.isCharAction) = true := by
  induction chars with
  | nil => intro i n; simp [buildTrace]
  | cons c rest ih =>
    intro i n
    by_cases hov : c.get_valid_values_override.1
    · have hcons : buildTrace (c :: rest) i n =
          SvcStep.assignHandle i
            :: SvcStep.buildStruct i (some (n, c.get_valid_values_override.2))
            :: buildTrace rest (i + 1) (n + 1) := by
        rw [buildTrace, if_pos hov]
      rw [hcons, List.all_cons, List.all_cons, ih]
      rfl
    · have hcons : buildTrace (c :: rest) i n =
          SvcStep.assignHandle i :: SvcStep.buildStruct i none
            :: buildTrace rest (i + 1) n := by
        rw [buildTrace, if_neg hov]
      rw [hcons, List.all_cons, List.all_cons, ih]
      rfl

lemma allocBlocks_map_fst (chars : List CharObj) :
    ∀ n : ℕ,
      (allocBlocks chars n).map Prod.fst =
        List.range' n (chars.countP fun c => c.get_valid_values_override.1) := by
  induction chars with
  | nil => intro n; simp [allocBlocks]
  | cons c rest ih =>
    intro n
    by_cases hov : c.get_valid_values_override.1 <;>
      simp [allocBlocks, hov, ih, List.countP_cons, List.range'_succ]

lemma allocBlocks_map_snd (chars : List CharObj) :
    ∀ n : ℕ,
      (allocBlocks chars n).map Prod.snd =
        (chars.filter fun c => c.get_valid_values_override.1).map
          fun c => c.get_valid_values_override.2 := by
  induction chars with
  | nil => intro n; simp [allocBlocks]
  | cons c rest ih =>
    intro n
    by_cases hov : c.get_valid_values_override.1 <;>
      simp [allocBlocks, hov, ih, List.filter_cons]

lemma allocatedAddrs_append (l1 l2 : List SvcStep) :
    allocatedAddrs (l1 ++ l2) = allocatedAddrs l1 ++ allocatedAddrs l2 := by
  induction l1 with
  | nil => simp [allocatedAddrs]
  | cons s rest ih =>
    cases hs : s.allocatedOf <;> simp [allocatedAddrs, hs, ih]

lemma allocatedData_append (l1 l2 : List SvcStep) :
    allocatedData (l1 ++ l2) = allocatedData l1 ++ allocatedData l2 := by
  induction l1 with
  | nil => simp [allocatedData]
  | cons s rest ih =>
    cases hs : s.allocatedOf <;> simp [allocatedData, hs, ih]

lemma freedAddrs_append (l1 l2 : List SvcStep) :
    freedAddrs (l1 ++ l2) = freedAddrs l1 ++ freedAddrs l2 := by
  induction l1 with
  | nil => simp [freedAddrs]
  | cons s rest ih =>
    cases hs : s.freedOf <;> simp [freedAddrs, hs, ih]

lemma takeWhile_append_cons_stop {α : Type} (p : α → Bool) :
    ∀ (l1 : List α) (x : α) (l2 : List α),
      l1.all p = true → p x = false →
      (l1 ++ x :: l2).takeWhile p = l1 := by
  intro l1
  induction l1 with
  | nil => intro x l2 _ hx; simp [List.takeWhile_cons, hx]
  | cons a rest ih =>
    intro x l2 hall hx
    rw [List.all_cons, Bool.and_eq_true] at hall
    simp [List.takeWhile_cons, hall.1, ih x l2 hall.2 hx]

lemma allocatedAddrs_cons_none {s : SvcStep} (hs : s.allocatedOf = none)
    (l : List SvcStep) : allocatedAddrs (s :: l) = allocatedAddrs l := by
  simp [allocatedAddrs, hs]

lemma allocatedData_cons_none {s : SvcStep} (hs : s.allocatedOf = none)
    (l : List SvcStep) : allocatedData (s :: l) = allocatedData l := by
  simp [allocatedData, hs]

lemma freedAddrs_cons_none {s : SvcStep} (hs : s.freedOf = none)
    (l : List SvcStep) : freedAddrs (s :: l) = freedAddrs l := by
  simp [freedAddrs, hs]

lemma add_service_trace_eq (ah : ℤ) (st : ℕ) (chars : List CharObj)
    (h : Heap) :
    (Accessory.add_service ah st chars h).2.2.2 =
      buildTrace chars 0 h.nextAddr ++
        (SvcStep.hostCallEx st chars.length
          :: ((Accessory.add_service_release
                (Accessory.add_service_build ah chars 0 h).2.1 0
                (Accessory.add_service_build ah chars 0 h).2.2.1).2
              ++ [SvcStep.freeStructArray])) := by
  have h0 : (Accessory.add_service ah st chars h).2.2.2 =
      (Accessory.add_service_build ah chars 0 h).2.2.2 ++
        (SvcStep.hostCallEx st chars.length
          :: ((Accessory.add_service_release
                (Accessory.add_service_build ah chars 0 h).2.1 0
                (Accessory.add_service_build ah chars 0 h).2.2.1).2
              ++ [SvcStep.freeStructArray])) := rfl
  rw [h0, add_service_build_trace]

lemma all_imp {α : Type} (l : List α) (p q : α → Bool) (h : l.all p = true)
    (himp : ∀ a, p a = true → q a = true) : l.all q = true := by
  rw [List.all_eq_true] at h ⊢
  exact fun a ha => himp a (h a ha)

lemma buildTrace_assign_before_build (chars : List CharObj) :
    ∀ (i n k : ℕ) (suffix : List SvcStep),
      k < chars.length →
      (((buildTrace chars i n ++ suffix).takeWhile fun s =>
          !(s.isBuildOf (i + k))).any fun s => s.isAssignOf (i + k)) = true := by
  induction chars with
  | nil => intro i n k suffix hk; simp at hk
  | cons c rest ih =>
    intro i n k suffix hk
    by_cases hov : c.get_valid_values_override.1
    · have hcons : buildTrace (c :: rest) i n ++ suffix =
          SvcStep.assignHandle i
            :: SvcStep.buildStruct i (some (n, c.get_valid_values_override.2))
            :: (buildTrace rest (i + 1) (n + 1) ++ suffix) := by
        rw [buildTrace, if_pos hov]
        rfl
      cases k with
      | zero =>
        simp [hcons, List.takeWhile_cons, SvcStep.isBuildOf,
          SvcStep.isAssignOf]
      | succ k2 =>
        have hlt : k2 < rest.length := by
          simp only [List.length_cons] at hk; omega
        have harith : i + (k2 + 1) = i + 1 + k2 := by omega
        have hne : ((i : ℕ) == i + 1 + k2) = false := by
          simp only [beq_eq_false_iff_ne]; omega
        have e1 : SvcStep.isBuildOf (i + 1 + k2) (SvcStep.assignHandle i) =
            false := rfl
        have e2 : ∀ x, SvcStep.isBuildOf (i + 1 + k2)
            (SvcStep.buildStruct i x) = ((i : ℕ) == i + 1 + k2) := fun _ => rfl
        have e3 : SvcStep.isAssignOf (i + 1 + k2) (SvcStep.assignHandle i) =
            ((i : ℕ) == i + 1 + k2) := rfl
        have e4 : ∀ x, SvcStep.isAssignOf (i + 1 + k2)
            (SvcStep.buildStruct i x) = false := fun _ => rfl
        rw [hcons, harith]
        simpa [List.takeWhile_cons, List.any_cons, e1, e2, e3, e4, hne]
          using ih (i + 1) (n + 1) k2 suffix hlt
    · have hcons : buildTrace (c :: rest) i n ++ suffix =
          SvcStep.assignHandle i :: SvcStep.buildStruct i none
            :: (buildTrace rest (i + 1) n ++ suffix) := by
        rw [buildTrace, if_neg hov]
        rfl
      cases k with
      | zero =>
        simp [hcons, List.takeWhile_cons, SvcStep.isBuildOf,
          SvcStep.isAssignOf]
      | succ k2 =>
        have hlt : k2 < rest.length := by
          simp only [List.length_cons] at hk; omega
        have harith : i + (k2 + 1) = i + 1 + k2 := by omega
        have hne : ((i : ℕ) == i + 1 + k2) = false := by
          simp only [beq_eq_false_iff_ne]; omega
        have e1 : SvcStep.isBuildOf (i + 1 + k2) (SvcStep.assignHandle i) =
            false := rfl
        have e2 : ∀ x, SvcStep.isBuildOf (i + 1 + k2)
            (SvcStep.buildStruct i x) = ((i : ℕ) == i + 1 + k2) := fun _ => rfl
        have e3 : SvcStep.isAssignOf (i + 1 + k2) (SvcStep.assignHandle i) =
            ((i : ℕ) == i + 1 + k2) := rfl
        have e4 : ∀ x, SvcStep.isAssignOf (i + 1 + k2)
            (SvcStep.buildStruct i x) = false := fun _ => rfl
        rw [hcons, harith]
        simpa [List.takeWhile_cons, List.any_cons, e1, e2, e3, e4, hne]
          using ih (i + 1) n k2 suffix hlt

lemma buildTrace_assign_before_hostCall (chars : List CharObj) :
    ∀ (i n k : ℕ) (suffix : List SvcStep),
      k < chars.length →
      (((buildTrace chars i n ++ suffix).takeWhile fun s =>
          !s.isHostCall).any fun s => s.isAssignOf (i + k)) = true := by
  induction chars with
  | nil => intro i n k suffix hk; simp at hk
  | cons c rest ih =>
    intro i n k suffix hk
    by_cases hov : c.get_valid_values_override.1
    · have hcons : buildTrace (c :: rest) i n ++ suffix =
          SvcStep.assignHandle i
            :: SvcStep.buildStruct i (some (n, c.get_valid_values_override.2))
            :: (buildTrace rest (i + 1) (n + 1) ++ suffix) := by
        rw [buildTrace, if_pos hov]
        rfl
      cases k with
      | zero =>
        simp [hcons, List.takeWhile_cons, SvcStep.isHostCall,
          SvcStep.isAssignOf]
      | succ k2 =>
        have hlt : k2 < rest.length := by
          simp only [List.length_cons] at hk; omega
        have harith : i + (k2 + 1) = i + 1 + k2 := by omega
        have hne : ((i : ℕ) == i + 1 + k2) = false := by
          simp only [beq_eq_false_iff_ne]; omega
        have e1 : SvcStep.isHostCall (SvcStep.assignHandle i) = false := rfl
        have e2 : ∀ x, SvcStep.isHostCall (SvcStep.buildStruct i x) =
            false := fun _ => rfl
        have e3 : SvcStep.isAssignOf (i + 1 + k2) (SvcStep.assignHandle i) =
            ((i : ℕ) == i + 1 + k2) := rfl
        have e4 : ∀ x, SvcStep.isAssignOf (i + 1 + k2)
            (SvcStep.buildStruct i x) = false := fun _ => rfl
        rw [hcons, harith]
        simpa [List.takeWhile_cons, List.any_cons, e1, e2, e3, e4, hne]
          using ih (i + 1) (n + 1) k2 suffix hlt
    · have hcons : buildTrace (c :: rest) i n ++ suffix =
          SvcStep.assignHandle i :: SvcStep.buildStruct i none
            :: (buildTrace rest (i + 1) n ++ suffix) := by
        rw [buildTrace, if_neg hov]
        rfl
      cases k with
      | zero =>
        simp [hcons, List.takeWhile_cons, SvcStep.isHostCall,
          SvcStep.isAssignOf]
      | succ k2 =>
        have hlt : k2 < rest.length := by
          simp only [List.length_cons] at hk; omega
        have harith : i + (k2 + 1) = i + 1 + k2 := by omega
        have hne : ((i : ℕ) == i + 1 + k2) = false := by
          simp only [beq_eq_false_iff_ne]; omega
        have e1 : SvcStep.isHostCall (SvcStep.assignHandle i) = false := rfl
        have e2 : ∀ x, SvcStep.isHostCall (SvcStep.buildStruct i x) =
            false := fun _ => rfl
        have e3 : SvcStep.isAssignOf (i + 1 + k2) (SvcStep.assignHandle i) =
            ((i : ℕ) == i + 1 + k2) := rfl
        have e4 : ∀ x, SvcStep.isAssignOf (i + 1 + k2)
            (SvcStep.buildStruct i x) = false := fun _ => rfl
        rw [hcons, harith]
        simpa [List.takeWhile_cons, List.any_cons, e1, e2, e3, e4, hne]
          using ih (i + 1) n k2 suffix hlt

/-- C5: in every add_service call, each transfer structure of a
characteristic whose valid-values override is present carries an array
pointer and a count equal to the override source length, and the contents
allocated are exact copies of the source sequences; every address the call
allocates is freed exactly once (the freed addresses are exactly the
allocated ones), the allocations are fresh consecutive addresses (so no
pre-existing storage, in particular no source sequence, is ever freed);
no release step runs before the host call; the characteristics keep their
override data unchanged; and the final heap is the initial heap with only
the allocation frontier advanced (when the override is absent nothing is
allocated and the count is zero, as the count/pointer mirror conjunct
states). -/
theorem valid_values_alloc_release_contract :
    ∀ (ah : ℤ) (st : ℕ) (chars : List CharObj) (h : Heap),
      h.wfb = true →
      ((((Accessory.add_service ah st chars h).2.1.zip chars).all fun p =>
          (p.1.override_valid_values == p.2.get_valid_values_override.1)
          && (p.1.valid_values_count ==
                if p.2.get_valid_values_override.1 then
                  p.2.get_valid_values_override.2.length
                else 0)
          && (p.1.valid_values.isSome == p.2.get_valid_values_override.1)) =
        true)
      ∧ allocatedData (Accessory.add_service ah st chars h).2.2.2 =
          ((chars.filter fun c => c.get_valid_values_override.1).map
            fun c => c.get_valid_values_override.2)
      ∧ freedAddrs (Accessory.add_service ah st chars h).2.2.2 =
          allocatedAddrs (Accessory.add_service ah st chars h).2.2.2
      ∧ allocatedAddrs (Accessory.add_service ah st chars h).2.2.2 =
          List.range' h.nextAddr
            (chars.countP fun c => c.get_valid_values_override.1)
      ∧ ((((Accessory.add_service ah st chars h).2.2.2.takeWhile fun s =>
            !s.isHostCall).all fun s => !s.isRelease) = true)
      ∧ (Accessory.add_service ah st chars h).1.map
            (fun c => c.get_valid_values_override) =
          chars.map (fun c => c.get_valid_values_override)
      ∧ (Accessory.add_service ah st chars h).2.2.1 =
          ⟨h.nextAddr + chars.countP fun c => c.get_valid_values_override.1,
            h.blocks⟩ := by
  intro ah st chars h hwf
  have hstructs : (Accessory.add_service ah st chars h).2.1 =
      (Accessory.add_service_build ah chars 0 h).2.1 := rfl
  have hchars : (Accessory.add_service ah st chars h).1 =
      (Accessory.add_service_build ah chars 0 h).1 := rfl
  have hheap : (Accessory.add_service ah st chars h).2.2.1 =
      (Accessory.add_service_release
        (Accessory.add_service_build ah chars 0 h).2.1 0
        (Accessory.add_service_build ah chars 0 h).2.2.1).1 := rfl
  have htrace := add_service_trace_eq ah st chars h
  refine ⟨?_, ?_, ?_, ?_, ?_, ?_, ?_⟩
  · rw [hstructs]
    exact add_service_build_match ah chars 0 h
  · rw [htrace, allocatedData_append,
      allocatedData_cons_none (show (SvcStep.hostCallEx st
        chars.length).allocatedOf = none from rfl),
      allocatedData_append, (add_service_release_allocated _ 0 _).2,
      buildTrace_allocatedData, allocBlocks_map_snd]
    simp [allocatedData, SvcStep.allocatedOf]
  · rw [htrace, freedAddrs_append,
      freedAddrs_cons_none (show (SvcStep.hostCallEx st
        chars.length).freedOf = none from rfl),
      freedAddrs_append, add_service_release_freed,
      buildTrace_freed, allocatedAddrs_append,
      allocatedAddrs_cons_none (show (SvcStep.hostCallEx st
        chars.length).allocatedOf = none from rfl),
      allocatedAddrs_append, (add_service_release_allocated _ 0 _).1,
      buildTrace_allocatedAddrs, add_service_build_ptrs]
    simp [freedAddrs, allocatedAddrs, SvcStep.freedOf, SvcStep.allocatedOf]
  · rw [htrace, allocatedAddrs_append,
      allocatedAddrs_cons_none (show (SvcStep.hostCallEx st
        chars.length).allocatedOf = none from rfl),
      allocatedAddrs_append, (add_service_release_allocated _ 0 _).1,
      buildTrace_allocatedAddrs, allocBlocks_map_fst]
    simp [allocatedAddrs, SvcStep.allocatedOf]
  · rw [htrace]
    have hall : (buildTrace chars 0 h.nextAddr).all
        (fun s => !s.isHostCall) = true :=
      all_imp _ _ _ (buildTrace_kinds chars 0 h.nextAddr) fun a ha => by
        rw [Bool.and_eq_true, Bool.and_eq_true] at ha
        exact ha.1.1
    rw [takeWhile_append_cons_stop _ _ (SvcStep.hostCallEx st chars.length) _
      hall rfl]
    exact all_imp _ _ _ (buildTrace_kinds chars 0 h.nextAddr) fun a ha => by
      rw [Bool.and_eq_true, Bool.and_eq_true] at ha
      exact ha.1.2
  · rw [hchars]
    exact add_service_build_overrides ah chars 0 h
  · rw [hheap]
    have heta : (Accessory.add_service_release
        (Accessory.add_service_build ah chars 0 h).2.1 0
        (Accessory.add_service_build ah chars 0 h).2.2.1).1 =
      ⟨(Accessory.add_service_release
          (Accessory.add_service_build ah chars 0 h).2.1 0
          (Accessory.add_service_build ah chars 0 h).2.2.1).1.nextAddr,
        (Accessory.add_service_release
          (Accessory.add_service_build ah chars 0 h).2.1 0
          (Accessory.add_service_build ah chars 0 h).2.2.1).1.blocks⟩ := rfl
    rw [heta, add_service_release_nextAddr, add_service_release_blocks,
      add_service_build_nextAddr, add_service_build_blocks]
    simp only [add_service_build_ptrs, allocBlocks_map_fst]
    congr 1
    rw [List.filter_append]
    have hA : ((allocBlocks chars h.nextAddr).reverse.filter fun b =>
        decide (b.1 ∉ List.range' h.nextAddr
          (chars.countP fun c => c.get_valid_values_override.1))) = [] := by
      rw [List.filter_eq_nil]
      intro b hb
      rw [List.mem_reverse] at hb
      have hmem : b.1 ∈ (allocBlocks chars h.nextAddr).map Prod.fst :=
        List.mem_map_of_mem Prod.fst hb
      rw [allocBlocks_map_fst] at hmem
      simp [hmem]
    have hB : (h.blocks.filter fun b =>
        decide (b.1 ∉ List.range' h.nextAddr
          (chars.countP fun c => c.get_valid_values_override.1))) =
        h.blocks := by
      rw [List.filter_eq_self]
      intro b hb
      rw [Heap.wfb, List.all_eq_true] at hwf
      have hlt := hwf b hb
      rw [decide_eq_true_eq] at hlt ⊢
      intro hcontra
      rw [List.mem_range'_1] at hcontra
      omega
    rw [hA, hB, List.nil_append]

/-- Witness for C5: the contract evaluated on a concrete service of two
characteristics (one with a valid-values override, one without) against
the empty heap. -/
theorem valid_values_alloc_release_contract_witness :
    sampleHeap.wfb = true
    ∧ (((((Accessory.add_service 5 9 sampleChars sampleHeap).2.1.zip
          sampleChars).all fun p =>
          (p.1.override_valid_values == p.2.get_valid_values_override.1)
          && (p.1.valid_values_count ==
                if p.2.get_valid_values_override.1 then
                  p.2.get_valid_values_override.2.length
                else 0)
          && (p.1.valid_values.isSome == p.2.get_valid_values_override.1)) =
        true)
      ∧ allocatedData (Accessory.add_service 5 9 sampleChars
            sampleHeap).2.2.2 =
          ((sampleChars.filter fun c => c.get_valid_values_override.1).map
            fun c => c.get_valid_values_override.2)
      ∧ freedAddrs (Accessory.add_service 5 9 sampleChars sampleHeap).2.2.2 =
          allocatedAddrs (Accessory.add_service 5 9 sampleChars
            sampleHeap).2.2.2
      ∧ allocatedAddrs (Accessory.add_service 5 9 sampleChars
            sampleHeap).2.2.2 =
          List.range' sampleHeap.nextAddr
            (sampleChars.countP fun c => c.get_valid_values_override.1)
      ∧ ((((Accessory.add_service 5 9 sampleChars
            sampleHeap).2.2.2.takeWhile fun s =>
            !s.isHostCall).all fun s => !s.isRelease) = true)
      ∧ (Accessory.add_service 5 9 sampleChars sampleHeap).1.map
            (fun c => c.get_valid_values_override) =
          sampleChars.map (fun c => c.get_valid_values_override)
      ∧ (Accessory.add_service 5 9 sampleChars sampleHeap).2.2.1 =
          ⟨sampleHeap.nextAddr +
            sampleChars.countP fun c => c.get_valid_values_override.1,
            sampleHeap.blocks⟩) :=
  ⟨by decide,
   valid_values_alloc_release_contract 5 9 sampleChars sampleHeap (by decide)⟩

/-- C8: in every add_service call, for each characteristic the
accessory-handle assignment occurs in the trace strictly before that
characteristic is converted into a transfer structure and before the host
call; add_service itself performs no characteristic-layer action (in
particular no value_changed dispatch) anywhere in the call; and every
characteristic carries the assigned accessory handle afterwards. -/
theorem handle_assigned_before_struct :
    ∀ (ah : ℤ) (st : ℕ) (chars : List CharObj) (h : Heap),
      (((List.range chars.length).all fun i =>
          (((Accessory.add_service ah st chars h).2.2.2.takeWhile fun s =>
              !(s.isBuildOf i)).any fun s => s.isAssignOf i)) = true)
      ∧ (((List.range chars.length).all fun i =>
          (((Accessory.add_service ah st chars h).2.2.2.takeWhile fun s =>
              !s.isHostCall).any fun s => s.isAssignOf i)) = true)
      ∧ (((Accessory.add_service ah st chars h).2.2.2.all fun s =>
            !s.isCharAction) = true)
      ∧ (((Accessory.add_service ah st chars h).1.all fun c =>
            c.base.accessory_handle == some ah) = true) := by
  intro ah st chars h
  have hchars : (Accessory.add_service ah st chars h).1 =
      (Accessory.add_service_build ah chars 0 h).1 := rfl
  have htrace := add_service_trace_eq ah st chars h
  refine ⟨?_, ?_, ?_, ?_⟩
  · rw [List.all_eq_true]
    intro i hi
    rw [List.mem_range] at hi
    have hbb := buildTrace_assign_before_build chars 0 h.nextAddr i
      (SvcStep.hostCallEx st chars.length
        :: ((Accessory.add_service_release
              (Accessory.add_service_build ah chars 0 h).2.1 0
              (Accessory.add_service_build ah chars 0 h).2.2.1).2
            ++ [SvcStep.freeStructArray])) hi
    rw [htrace]
    simpa using hbb
  · rw [List.all_eq_true]
    intro i hi
    rw [List.mem_range] at hi
    have hbh := buildTrace_assign_before_hostCall chars 0 h.nextAddr i
      (SvcStep.hostCallEx st chars.length
        :: ((Accessory.add_service_release
              (Accessory.add_service_build ah chars 0 h).2.1 0
              (Accessory.add_service_build ah chars 0 h).2.2.1).2
            ++ [SvcStep.freeStructArray])) hi
    rw [htrace]
    simpa using hbh
  · rw [htrace, List.all_append, Bool.and_eq_true]
    refine ⟨?_, ?_⟩
    · exact all_imp _ _ _ (buildTrace_kinds chars 0 h.nextAddr) fun a ha => by
        rw [Bool.and_eq_true, Bool.and_eq_true] at ha
        exact ha.2
    · rw [List.all_cons, Bool.and_eq_true]
      refine ⟨rfl, ?_⟩
      rw [List.all_append, Bool.and_eq_true]
      refine ⟨?_, rfl⟩
      exact all_imp _ _ _ (add_service_release_kinds _ 0 _) fun a ha => by
        rw [Bool.and_eq_true, Bool.and_eq_true] at ha
        exact ha.1.2
  · rw [hchars]
    exact add_service_build_handles ah chars 0 h

lemma run_register_accessories_true (n : ℕ) :
    run_register_accessories n true =
      (true, List.replicate n (GStep.hapRegister true)) := by
  induction n with
  | zero => rfl
  | succ m ih =>
    simp [run_register_accessories, Accessory.register_accessory, ih,
      List.replicate_succ]

/-- C6: across any number n of register_accessory calls in one process
(starting from the unset flag), hap_init runs exactly once when n is
positive (zero times for n = 0), the very first host interaction is the
one-time init, every accessory handle is requested with the process-wide
flag already set, and the flag ends set. -/
theorem hap_init_runs_once :
    ∀ n : ℕ,
      ((run_register_accessories n false).2.countP
          fun s => s == GStep.hapInit) = (if n = 0 then 0 else 1)
      ∧ ((run_register_accessories n false).2.head? =
          if n = 0 then none else some GStep.hapInit)
      ∧ (((run_register_accessories n false).2.all fun s =>
          match s with
          | GStep.hapRegister flag => flag
          | GStep.hapInit => true) = true)
      ∧ (run_register_accessories n false).1 =
          (if n = 0 then false else true) := by
  intro n
  cases n with
  | zero => exact ⟨rfl, rfl, rfl, rfl⟩
  | succ m =>
    have hrun : run_register_accessories (m + 1) false =
        (true, GStep.hapInit :: GStep.hapRegister true ::
          List.replicate m (GStep.hapRegister true)) := by
      simp [run_register_accessories, Accessory.register_accessory,
        run_register_accessories_true]
    have hc : ((List.replicate m (GStep.hapRegister true)).countP
        fun s => s == GStep.hapInit) = 0 := by
      rw [List.countP_eq_zero]
      intro a ha
      rw [List.eq_of_mem_replicate ha]
      simp
    have hall : ((List.replicate m (GStep.hapRegister true)).all fun s =>
        match s with
        | GStep.hapRegister flag => flag
        | GStep.hapInit => true) = true := by
      rw [List.all_eq_true]
      intro a ha
      rw [List.eq_of_mem_replicate ha]
    rw [hrun]
    refine ⟨?_, rfl, ?_, rfl⟩
    · simp [List.countP_cons, hc]
    · simp [List.all_cons, hall]

lemma servicesAdded_map_serviceAdd
    (us : List (HapServiceType × List HapCharacterType)) :
    servicesAdded (us.map fun s => InitStep.serviceAdd s.1 s.2) = us := by
  induction us with
  | nil => rfl
  | cons s rest ih => simp [servicesAdded, ih]

/-- C7: when the post-registration callback runs, exactly one service (the
accessory-information service with exactly the six mandatory built-in
characteristics identify, manufacturer, model, name, serial number,
firmware revision, in that order) has been registered before the user init
hook is invoked, for every choice of user services; the full trace
registers the mandatory service first and then exactly the user services;
and an accessory whose init hook adds no service ends with exactly one
service of six characteristics. -/
theorem init_callback_mandatory_first :
    ∀ us : List (HapServiceType × List HapCharacterType),
      mandatory_characteristics.length = 6
      ∧ servicesAdded ((Accessory.init_callback us).takeWhile fun s =>
          !s.isUserHook) =
        [(HapServiceType.accessoryInformation, mandatory_characteristics)]
      ∧ servicesAdded (Accessory.init_callback us) =
          (HapServiceType.accessoryInformation, mandatory_characteristics)
            :: us
      ∧ servicesAdded (Accessory.init_callback []) =
          [(HapServiceType.accessoryInformation,
            [HapCharacterType.identify, HapCharacterType.manufacturer,
             HapCharacterType.model, HapCharacterType.name,
             HapCharacterType.serialNumber,
             HapCharacterType.firmwareRevision])] := by
  intro us
  refine ⟨rfl, rfl, ?_, rfl⟩
  simp [Accessory.init_callback, servicesAdded, servicesAdded_map_serviceAdd]

/-- C9, on the code as written: the address StringCharacteristic::read
returns is the address of the std::string temporary materialized inside
the call, which is destroyed before read returns, so the address is
already dead (not in the live set) when the caller receives it; a second
read does not return the same address again but a fresh temporary.  This
contradicts the claim that the address refers to the backing storage of
the characteristic and stays valid until the next read. -/
theorem stringRead_returns_dead_address :
    ∀ s : TempStore,
      (((StringCharacteristic.read s).2.live.countP fun a =>
          a == (StringCharacteristic.read s).1) = 0)
      ∧ (((StringCharacteristic.read ((StringCharacteristic.read s).2)).1 ==
          (StringCharacteristic.read s).1) = false) := by
  intro s
  refine ⟨?_, ?_⟩
  · rw [List.countP_eq_zero]
    intro a ha
    simp [StringCharacteristic.read, List.mem_filter] at ha
    simp [StringCharacteristic.read, beq_iff_eq]
    exact ha.2
  · rw [beq_eq_false_iff_ne]
    simp [StringCharacteristic.read]

end HAP
